import Mathlib

/-!
Verification of the Duo session-state / recovery engine against its
natural-language specification.

The TypeScript sources are shallowly embedded as Lean definitions:

* `src/src/state.ts` (= `src/unnamed/part_009`, compiled) — the `DuoState`
  class.  The in-memory session is a `DuoSession` value; every mutating
  method is a pure function from the old session (plus the timestamp that
  `now()` would produce) to the new session, the returned value and the
  list of filesystem operations the method performs.  `JSON.stringify` is
  modelled by storing the structured value itself inside a `FileContent`
  (the serialization is injective on this data, and no claim concerns its
  textual form).
* `src/unnamed/part_002` — the checkpoint subsystem.
* `src/dist/watcher.js` — the `DuoWatcher` class (debounce, ignore
  matching, task resolution).
* `src/unnamed/part_013` — the `duo_recover_session` recovery routine.

JavaScript strings that are only compared for equality stay `String`;
strings that the code slices, searches or sorts are modelled as `List Char`
(`JStr`) so that the JS `startsWith` / `endsWith` / `includes` / sort
operations become the corresponding list functions.
-/

set_option maxHeartbeats 1000000

namespace Duo

/-- JavaScript strings, as lists of characters, for the code paths that
manipulate string contents (paths, patterns, checkpoint file names). -/
abbrev JStr := List Char

/-! ## Data model (src/dist/types.d.ts) -/

/-- Embeds `type TaskAssignee = "human" | "ai"`. -/
inductive TaskAssignee
  | human
  | ai
deriving DecidableEq, Repr

/-- Embeds `type TaskStatus = "todo" | "in_progress" | "review" | "done"`. -/
inductive TaskStatus
  | todo
  | in_progress
  | review
  | done
deriving DecidableEq, Repr

/-- Embeds `type SessionPhase = "idle" | "design" | "planning" | "executing" |
"reviewing" | "integrating"`. -/
inductive SessionPhase
  | idle
  | design
  | planning
  | executing
  | reviewing
  | integrating
deriving DecidableEq, Repr

/-- The values of `Task.reviewStatus`: `"pending" | "approved" |
"changes_requested"`. -/
inductive ReviewStatus
  | pending
  | approved
  | changes_requested
deriving DecidableEq, Repr

/-- Embeds `interface Task` from types.d.ts.  `files` entries are string-searched
by the watcher, hence `JStr`. -/
structure Task where
  id : String
  description : String
  assignee : TaskAssignee
  status : TaskStatus
  files : List JStr
  reviewStatus : Option ReviewStatus := none
  reviewNotes : Option String := none
  createdAt : String
  updatedAt : String
deriving DecidableEq, Repr

/-- Embeds `interface TaskBoard`. -/
structure TaskBoard where
  tasks : List Task
  createdAt : String
  updatedAt : String
deriving DecidableEq, Repr

/-- Embeds `interface DesignDocument`. -/
structure DesignDocument where
  taskDescription : String
  agreedDesign : String
  decisions : List String
  deferredItems : List String
  createdAt : String
deriving DecidableEq, Repr

/-- Embeds `interface UserPreferences`; the `overrides` record is an association
list. -/
structure UserPreferences where
  humanPrefers : List String
  aiPrefers : List String
  overrides : List (String × TaskAssignee)
deriving DecidableEq, Repr

/-- Embeds `interface SubagentInfo` (delegated-work record): owning task id,
optional external agent id, status, spawn timestamp, instruction text. -/
structure SubagentInfo where
  taskId : String
  agentId : Option String := none
  status : String
  spawnedAt : String
  prompt : String
deriving DecidableEq, Repr

/-- Embeds `interface DuoSession`.  After `init` the `subagents` array always
exists (the backward-compat branch in part_009 backfills `[]`), so it is
a plain list here. -/
structure DuoSession where
  phase : SessionPhase
  projectRoot : String
  taskBoard : TaskBoard
  design : Option DesignDocument
  preferences : UserPreferences
  subagents : List SubagentInfo
  startedAt : String
  updatedAt : String
deriving DecidableEq, Repr

/-! ## Filesystem effects of `DuoState`

Each durable write is recorded as an `FsOp`.  The content written by
`JSON.stringify` / `formatDesignDoc` is modelled by the structured value
being serialized. -/

/-- Content of a durable write performed by `DuoState`. -/
inductive FileContent
  | sessionJson (s : DuoSession)
  | prefsJson (p : UserPreferences)
  | designMd (d : DesignDocument)
deriving DecidableEq

/-- A filesystem operation.  The `rename` constructor exists so that the
atomic write-then-rename discipline required by the specification is
expressible; the reference code never produces it. -/
inductive FsOp
  | write (path : String) (content : FileContent)
  | rename (srcPath dstPath : String)
deriving DecidableEq

/-- Embeds `join(a, b)` from node:path, for the two-segment joins the state
manager performs. -/
def joinPath (a b : String) : String := a ++ "/" ++ b

/-- Embeds `this.stateDir = join(projectRoot, ".duo")` (default config). -/
def stateDirOf (projectRoot : String) : String := joinPath projectRoot ".duo"

/-- The path of the primary session file, `join(stateDir, "session.json")`. -/
def sessionPathOf (projectRoot : String) : String :=
  joinPath (stateDirOf projectRoot) "session.json"

/-- Whether an `FsOp` is a rename. -/
def FsOp.isRename : FsOp → Bool
  | .rename _ _ => true
  | .write _ _ => false

/-! ## DuoState operations (src/src/state.ts / part_009)

`now` is the ISO timestamp `new Date().toISOString()` would produce during
the call (the code may sample it several times within one call; the
samples are indistinguishable at the modelled granularity).  `emitEvent`
only forwards to an optional dashboard and mutates nothing, so it is not
modelled. -/

/-- Embeds `DuoState.save` (state.ts:79-85): set `session.updatedAt`, then write
the full serialized session directly to `session.json`. -/
def save (now : String) (s : DuoSession) : DuoSession × List FsOp :=
  let s' := { s with updatedAt := now }
  (s', [FsOp.write (sessionPathOf s.projectRoot) (FileContent.sessionJson s')])

/-- Embeds `DuoState.getTask` (state.ts:132-134): first task with the given id. -/
def getTask (s : DuoSession) (id : String) : Option Task :=
  s.taskBoard.tasks.find? (fun t => t.id == id)

/-- Embeds `DuoState.addTask` (state.ts:136-155): unconditionally push a fresh
`todo` task onto the board and save.  There is no duplicate-id check. -/
def addTask (now : String) (s : DuoSession) (id description : String)
    (assignee : TaskAssignee) (files : List JStr) :
    DuoSession × Task × List FsOp :=
  let task : Task :=
    { id := id, description := description, assignee := assignee,
      status := TaskStatus.todo, files := files,
      createdAt := now, updatedAt := now }
  let s1 := { s with taskBoard :=
    { s.taskBoard with tasks := s.taskBoard.tasks ++ [task], updatedAt := now } }
  let r := save now s1
  (r.1, task, r.2)

/-- Mutate the first task with the given id, as the JS `find`-then-assign
pattern does. -/
def updateFirst (id : String) (f : Task → Task) : List Task → List Task
  | [] => []
  | t :: rest => if t.id == id then f t :: rest else t :: updateFirst id f rest

/-- Embeds `DuoState.updateTaskStatus` (state.ts:157-165): throws
`Task {id} not found` when the id is absent, before touching any state;
otherwise mutates the found task's status and saves. -/
def updateTaskStatus (now : String) (s : DuoSession) (id : String)
    (status : TaskStatus) : Except String (DuoSession × Task × List FsOp) :=
  match getTask s id with
  | none => Except.error ("Task " ++ id ++ " not found")
  | some t =>
    let t' := { t with status := status, updatedAt := now }
    let s1 := { s with taskBoard :=
      { s.taskBoard with
        tasks := updateFirst id (fun u => { u with status := status, updatedAt := now })
          s.taskBoard.tasks,
        updatedAt := now } }
    let r := save now s1
    Except.ok (r.1, t', r.2)

/-- Embeds `DuoState.reassignTask` (state.ts:167-175). -/
def reassignTask (now : String) (s : DuoSession) (id : String)
    (assignee : TaskAssignee) : Except String (DuoSession × Task × List FsOp) :=
  match getTask s id with
  | none => Except.error ("Task " ++ id ++ " not found")
  | some t =>
    let t' := { t with assignee := assignee, updatedAt := now }
    let s1 := { s with taskBoard :=
      { s.taskBoard with
        tasks := updateFirst id (fun u => { u with assignee := assignee, updatedAt := now })
          s.taskBoard.tasks,
        updatedAt := now } }
    let r := save now s1
    Except.ok (r.1, t', r.2)

/-- Embeds `DuoState.setReviewStatus` (state.ts:177-189).  `if (notes)` is JS
truthiness: an absent or empty string leaves `reviewNotes` alone.  Note
this method does not touch `taskBoard.updatedAt`. -/
def setReviewStatus (now : String) (s : DuoSession) (id : String)
    (status : ReviewStatus) (notes : Option String) :
    Except String (DuoSession × Task × List FsOp) :=
  match getTask s id with
  | none => Except.error ("Task " ++ id ++ " not found")
  | some t =>
    let newNotes := match notes with
      | some n => if n = "" then t.reviewNotes else some n
      | none => t.reviewNotes
    let t' := { t with reviewStatus := some status, reviewNotes := newNotes,
                       updatedAt := now }
    let s1 := { s with taskBoard :=
      { s.taskBoard with
        tasks := updateFirst id
          (fun u => { u with reviewStatus := some status,
                             reviewNotes := match notes with
                               | some n => if n = "" then u.reviewNotes else some n
                               | none => u.reviewNotes,
                             updatedAt := now })
          s.taskBoard.tasks } }
    let r := save now s1
    Except.ok (r.1, t', r.2)

/-- Embeds `DuoState.setPhase` (state.ts:109-112): unconditional transition, then
save. -/
def setPhase (now : String) (s : DuoSession) (phase : SessionPhase) :
    DuoSession × List FsOp :=
  save now { s with phase := phase }

/-- Embeds `DuoState.saveDesign` (state.ts:94-101): rewrite `design.md` when a
design exists. -/
def saveDesignOps (s : DuoSession) : List FsOp :=
  match s.design with
  | some d => [FsOp.write (joinPath (stateDirOf s.projectRoot) "design.md")
                 (FileContent.designMd d)]
  | none => []

/-- Embeds `DuoState.setDesign` (state.ts:116-120): replace the document
wholesale, rewrite `design.md`, then save the session. -/
def setDesign (now : String) (s : DuoSession) (d : DesignDocument) :
    DuoSession × List FsOp :=
  let s1 := { s with design := some d }
  let dOps := saveDesignOps s1
  let r := save now s1
  (r.1, dOps ++ r.2)

/-- Embeds `DuoState.addSubagent` (part_009:211-217): pure append, then save. -/
def addSubagent (now : String) (s : DuoSession) (info : SubagentInfo) :
    DuoSession × List FsOp :=
  save now { s with subagents := s.subagents ++ [info] }

/-- Outcome of a `JSON.parse` call: either the parsed value or a thrown
`SyntaxError`. -/
inductive ParseOutcome (α : Type)
  | parsed (a : α)
  | malformed
deriving DecidableEq

/-- Embeds `DuoState.init` (state.ts:57-75).  The on-disk situation is supplied
as oracle inputs: `sessionFile` is `none` when `session.json` does not
exist, otherwise the outcome of `JSON.parse` on its content (and likewise
for `preferences.json`).  The code calls `JSON.parse` with no try/catch,
so a parse exception propagates out of `init`. -/
def init (defaultSession : DuoSession)
    (sessionFile : Option (ParseOutcome DuoSession))
    (prefsFile : Option (ParseOutcome UserPreferences)) :
    Except String DuoSession :=
  match sessionFile with
  | some ParseOutcome.malformed => Except.error "SyntaxError"
  | some (ParseOutcome.parsed loaded) =>
    match prefsFile with
    | some ParseOutcome.malformed => Except.error "SyntaxError"
    | some (ParseOutcome.parsed p) => Except.ok { loaded with preferences := p }
    | none => Except.ok loaded
  | none =>
    match prefsFile with
    | some ParseOutcome.malformed => Except.error "SyntaxError"
    | some (ParseOutcome.parsed p) =>
      Except.ok { defaultSession with preferences := p }
    | none => Except.ok defaultSession

/-- Number of board entries carrying a given id. -/
def countById (s : DuoSession) (id : String) : Nat :=
  (s.taskBoard.tasks.filter (fun t => t.id == id)).length

/-- The filesystem trace of a fallible mutation: a JS `throw` aborts the
method before its `save()` call, so an exceptional return performs no
writes. -/
def mutationOps : Except String (DuoSession × Task × List FsOp) → List FsOp
  | Except.ok r => r.2.2
  | Except.error _ => []

/-- A flat model of the state directory for replaying `FsOp` traces. -/
abbrev StateFs := List (String × FileContent)

/-- Replace-or-append a file in the flat directory model. -/
def upsert (fs : StateFs) (path : String) (c : FileContent) : StateFs :=
  if fs.any (fun e => e.1 == path)
  then fs.map (fun e => if e.1 == path then (path, c) else e)
  else fs ++ [(path, c)]

/-- Apply a trace of filesystem operations. -/
def applyOps (fs : StateFs) : List FsOp → StateFs
  | [] => fs
  | FsOp.write p c :: rest => applyOps (upsert fs p c) rest
  | FsOp.rename a b :: rest =>
    applyOps ((fs.filter (fun e => e.1 != a)).map
      (fun e => e) ++ (fs.filter (fun e => e.1 == a)).map (fun e => (b, e.2))) rest

/-- The default idle session built by the `DuoState` constructor
(state.ts:44-52). -/
def defaultSession (projectRoot : String) (now : String) : DuoSession :=
  { phase := SessionPhase.idle
    projectRoot := projectRoot
    taskBoard := { tasks := [], createdAt := now, updatedAt := now }
    design := none
    preferences := { humanPrefers := [], aiPrefers := [], overrides := [] }
    subagents := []
    startedAt := now
    updatedAt := now }

/-- A concrete board whose task list already contains a task with id
`"1"`. -/
def sessionWithTask1 : DuoSession :=
  (addTask "2024-01-01T00:00:01.000Z"
    (defaultSession "/proj" "2024-01-01T00:00:00.000Z")
    "1" "Implement auth" TaskAssignee.human ["auth.ts".toList]).1

/-- C1: the claim demands that `addTask` with an id already on the board
fail with a Conflict error and leave the board unchanged.  The code
(state.ts:136-155) has no duplicate check: `addTask` is a total function
that unconditionally appends, so re-adding id "1" returns normally and
leaves two board entries with that id — the duplicate is silently
accepted, refuting the claim on this input. -/
theorem addTask_duplicate_id_silently_accepted :
    countById sessionWithTask1 "1" = 1 ∧
    countById (addTask "2024-01-01T00:00:02.000Z" sessionWithTask1 "1"
      "Second copy" TaskAssignee.ai []).1 "1" = 2 :=
  ⟨rfl, rfl⟩

/-- C2: the claim demands that `init` on a directory with unparsable
persisted state never throw, fall back to a default idle session, and log
a warning.  The code (state.ts:57-75) calls `JSON.parse` with no
try/catch, so a malformed `session.json` makes `init` throw a
`SyntaxError`; there is no fallback and no warning (corrupt state and
missing state are not distinguished anywhere).  The second conjunct shows
the default session is produced only on the no-prior-state path. -/
theorem init_throws_on_corrupt_state :
    ∀ (d : DuoSession) (prefsFile : Option (ParseOutcome UserPreferences)),
      init d (some ParseOutcome.malformed) prefsFile = Except.error "SyntaxError" ∧
      init d none none = Except.ok d := by
  intro d prefsFile
  exact ⟨rfl, rfl⟩

/-- C3: the claim demands that every durable session write go to a
temporary location and then be renamed over the target.  The code
(state.ts:79-85) performs a single direct `writeFile` of
`session.json`: the trace of `save` is exactly one write of the final
target path and contains no rename, refuting the claim for every mutating
operation (they all persist through `save`). -/
theorem save_writes_target_directly :
    ∀ (now : String) (s : DuoSession),
      (save now s).2 =
        [FsOp.write (sessionPathOf s.projectRoot)
          (FileContent.sessionJson { s with updatedAt := now })] ∧
      (save now s).2.all (fun op => !op.isRename) = true := by
  intro now s
  exact ⟨rfl, rfl⟩

/-- C8: `updateTaskStatus`, `reassignTask` and `setReviewStatus` on an
absent task id each fail with the `Task {id} not found` error
(state.ts:157-189).  The `throw` happens before any assignment and before
`save()`, so the in-memory session is untouched and the trace of
filesystem operations is empty: replaying it over any persisted state
directory leaves every file byte-for-byte unchanged. -/
theorem mutations_fail_notFound_when_id_absent :
    ∀ (now : String) (s : DuoSession) (id : String) (st : TaskStatus)
      (a : TaskAssignee) (rs : ReviewStatus) (notes : Option String),
      getTask s id = none →
      updateTaskStatus now s id st = Except.error ("Task " ++ id ++ " not found") ∧
      reassignTask now s id a = Except.error ("Task " ++ id ++ " not found") ∧
      setReviewStatus now s id rs notes = Except.error ("Task " ++ id ++ " not found") ∧
      (∀ fs : StateFs, applyOps fs (mutationOps (updateTaskStatus now s id st)) = fs) ∧
      (∀ fs : StateFs, applyOps fs (mutationOps (reassignTask now s id a)) = fs) ∧
      (∀ fs : StateFs, applyOps fs (mutationOps (setReviewStatus now s id rs notes)) = fs) := by
  intro now s id st a rs notes h
  refine ⟨?_, ?_, ?_, ?_, ?_, ?_⟩ <;>
    simp [updateTaskStatus, reassignTask, setReviewStatus, h, mutationOps, applyOps]

/-- Witness for C8 at a concrete input: the default session has no task
`"ghost"`, and reassigning it fails with the NotFound error. -/
theorem mutations_fail_notFound_when_id_absent_witness :
    getTask (defaultSession "/proj" "t0") "ghost" = none ∧
    updateTaskStatus "t1" (defaultSession "/proj" "t0") "ghost" TaskStatus.done =
      Except.error "Task ghost not found" :=
  ⟨rfl, (mutations_fail_notFound_when_id_absent "t1" (defaultSession "/proj" "t0")
      "ghost" TaskStatus.done TaskAssignee.ai ReviewStatus.pending none rfl).1⟩

/-! ## ChangeWatcher (src/dist/watcher.js) -/

/-- JS `hay.includes(needle)`: substring containment. -/
def containsSub (needle : JStr) : JStr → Bool
  | [] => needle.isPrefixOf []
  | c :: rest => needle.isPrefixOf (c :: rest) || containsSub needle rest

/-- The default `ignorePatterns` from the `DuoState` constructor
(state.ts:31-38), also used by the watcher configuration. -/
def defaultIgnorePatterns : List JStr :=
  ["node_modules".toList, ".git".toList, "dist".toList, "build".toList,
   ".duo".toList, "*.log".toList]

/-- Embeds `DuoWatcher.shouldIgnore` (watcher.js:95-103): a `*.`-pattern matches
by suffix (`filePath.endsWith(pattern.slice(1))`), any other pattern by
substring containment (`filePath.includes(pattern)`). -/
def shouldIgnore (ignorePatterns : List JStr) (filePath : JStr) : Bool :=
  ignorePatterns.any fun pat =>
    if "*.".toList.isPrefixOf pat
    then (pat.drop 1).isSuffixOf filePath
    else containsSub pat filePath

/-- One declared-ownership entry matches the relative path
(watcher.js:65-68): `relPath === f || relPath.startsWith(f) ||
f.endsWith(relPath) || relPath.includes(f)`. -/
def entryMatches (relPath f : JStr) : Bool :=
  relPath == f || f.isPrefixOf relPath || relPath.isSuffixOf f ||
    containsSub f relPath

/-- Embeds `DuoWatcher.matchTask` (watcher.js:63-69).  `relPath` is
`relative(this.projectRoot, filePath)`, the changed path resolved
relative to the project root (node's `path.relative` is a platform
function, modelled as the already-resolved input).  `tasks.find` returns
the first task, in declaration order, one of whose entries matches. -/
def matchTask (relPath : JStr) (tasks : List Task) : Option Task :=
  tasks.find? fun t => t.files.any (entryMatches relPath)

/-- Embeds `debounceMs = 500` (watcher.js:13). -/
def debounceMs : Nat := 500

/-- The `debounceTimers` map: for each path, the absolute time at which
its pending `setTimeout` will fire. -/
abbrev TimerMap := List (JStr × Nat)

/-- At wall time `t`, the timers whose deadline has been reached fire
(emitting their coalesced notification and deleting their map entry);
the rest stay pending. -/
def fireDue (t : Nat) (timers : TimerMap) : List (JStr × Nat) × TimerMap :=
  (timers.filter (fun pd => decide (pd.2 ≤ t)),
   timers.filter (fun pd => !decide (pd.2 ≤ t)))

/-- Embeds `DuoWatcher.handleChange` (watcher.js:71-83) at wall time `t`: an
ignored path is dropped before any timer is created; otherwise the
existing timer for that exact path (if any) is cleared and a fresh one
is scheduled for `t + debounceMs`. -/
def handleChange (pats : List JStr) (timers : TimerMap) (p : JStr) (t : Nat) :
    TimerMap :=
  if shouldIgnore pats p then timers
  else timers.filter (fun pd => pd.1 != p) ++ [(p, t + debounceMs)]

/-- Run the watcher over a time-ordered list of raw `(path, time)` events,
starting from the given timer map.  The result is the list of coalesced
notifications `(path, emission time)`: before each raw event is handled,
timers whose deadline passed have fired, and after the last raw event the
outstanding timers fire at their deadlines (the watcher keeps running). -/
def runWatcher (pats : List JStr) : TimerMap → List (JStr × Nat) → List (JStr × Nat)
  | timers, [] => timers
  | timers, (p, t) :: evs =>
    (fireDue t timers).1 ++
      runWatcher pats (handleChange pats (fireDue t timers).2 p t) evs

/-- A burst continuation: starting after an event at time `prev`, each
further event arrives no earlier than its predecessor and strictly within
the `debounceMs` quiet period of it. -/
def burstAfter (prev : Nat) : List Nat → Bool
  | [] => true
  | t :: ts => (decide (prev ≤ t) && decide (t < prev + debounceMs)) && burstAfter t ts

/-- The time of the last event of `t0 :: ts`. -/
def lastTime (t0 : Nat) (ts : List Nat) : Nat := ts.foldl (fun _ t => t) t0

/-- A declared entry is a directory and the path lies nested under it:
either the entry is followed by a separator in the path, or the entry
itself ends in `/` and is a prefix of the path. -/
def nestedUnder (dir p : JStr) : Bool :=
  (dir ++ ['/']).isPrefixOf p || (dir.getLast? == some '/' && dir.isPrefixOf p)

/-- The claim's matching categories, read bidirectionally: exact
equality, prefix, suffix, and substring containment in either
direction. -/
def specEntryMatches (p f : JStr) : Bool :=
  p == f || f.isPrefixOf p || p.isPrefixOf f || f.isSuffixOf p ||
    p.isSuffixOf f || containsSub f p || containsSub p f

/-! ### Watcher helper lemmas -/

theorem isPrefixOf_append_self : ∀ (l r : JStr), l.isPrefixOf (l ++ r) = true := by
  intro l r
  induction l with
  | nil => simp [List.isPrefixOf]
  | cons c cs ih => simp [List.isPrefixOf, ih]

theorem isPrefixOf_of_append {a b c : JStr} (h : (a ++ b).isPrefixOf c = true) :
    a.isPrefixOf c = true := by
  induction a generalizing c with
  | nil => simp [List.isPrefixOf]
  | cons x as ih =>
    cases c with
    | nil => simp [List.isPrefixOf] at h
    | cons y cs =>
      rw [List.cons_append] at h
      simp only [List.isPrefixOf, Bool.and_eq_true] at h ⊢
      exact ⟨h.1, ih h.2⟩

theorem entryMatches_of_nested {f p : JStr} (h : nestedUnder f p = true) :
    entryMatches p f = true := by
  have hpre : f.isPrefixOf p = true := by
    rcases Bool.or_eq_true_iff.mp h with h1 | h2
    · exact isPrefixOf_of_append h1
    · simp only [Bool.and_eq_true] at h2
      exact h2.2
  simp [entryMatches, hpre]

theorem specEntryMatches_of_entryMatches {f p : JStr}
    (h : entryMatches p f = true) : specEntryMatches p f = true := by
  simp only [entryMatches, Bool.or_eq_true] at h
  simp only [specEntryMatches, Bool.or_eq_true]
  tauto

theorem runWatcher_burst {pats : List JStr} {p : JStr}
    (hp : shouldIgnore pats p = false) :
    ∀ (ts : List Nat) (prev : Nat), burstAfter prev ts = true →
      runWatcher pats [(p, prev + debounceMs)] (ts.map (fun t => (p, t))) =
        [(p, lastTime prev ts + debounceMs)] := by
  intro ts
  induction ts with
  | nil => intro prev _; simp [runWatcher, lastTime]
  | cons t ts ih =>
    intro prev hb
    simp only [burstAfter, Bool.and_eq_true, decide_eq_true_eq] at hb
    obtain ⟨⟨hle, hlt⟩, hb'⟩ := hb
    have hnd : ¬ (prev + debounceMs ≤ t) := by omega
    have hfire : fireDue t [(p, prev + debounceMs)] = ([], [(p, prev + debounceMs)]) := by
      simp [fireDue, hnd]
    have hhandle : handleChange pats [(p, prev + debounceMs)] p t = [(p, t + debounceMs)] := by
      simp [handleChange, hp]
    simp only [List.map_cons, runWatcher, hfire, hhandle, List.nil_append]
    have : lastTime prev (t :: ts) = lastTime t ts := by simp [lastTime]
    rw [this]
    exact ih t hb'

theorem lastTime_bounds :
    ∀ (ts : List Nat) (prev : Nat), burstAfter prev ts = true →
      prev ≤ lastTime prev ts ∧ ∀ t ∈ ts, t ≤ lastTime prev ts := by
  intro ts
  induction ts with
  | nil => intro prev _; simp [lastTime]
  | cons t ts ih =>
    intro prev hb
    simp only [burstAfter, Bool.and_eq_true, decide_eq_true_eq] at hb
    obtain ⟨⟨hle, _⟩, hb'⟩ := hb
    have hlast : lastTime prev (t :: ts) = lastTime t ts := by simp [lastTime]
    obtain ⟨h1, h2⟩ := ih t hb'
    refine ⟨?_, ?_⟩
    · rw [hlast]; omega
    · intro u hu
      rw [hlast]
      rcases List.mem_cons.mp hu with rfl | hu'
      · exact h1
      · exact h2 u hu'

/-! ### Claim theorems: watcher -/

/-- C5: for a non-ignored path and a burst of `N ≥ 1` raw events on that
exact path, each arriving within the 500ms quiet period of its
predecessor, the watcher (started with no pending timers) emits exactly
one coalesced notification for the path, and its emission time is the
last raw event's time plus the full quiet period — strictly after every
raw event of the burst. -/
theorem debounce_burst_single_emission :
    ∀ (pats : List JStr) (p : JStr) (t0 : Nat) (ts : List Nat),
      shouldIgnore pats p = false →
      burstAfter t0 ts = true →
      runWatcher pats [] ((t0 :: ts).map (fun t => (p, t))) =
        [(p, lastTime t0 ts + debounceMs)] ∧
      (∀ t ∈ t0 :: ts, t < lastTime t0 ts + debounceMs) := by
  intro pats p t0 ts hp hb
  constructor
  · have hfire : fireDue t0 ([] : TimerMap) = ([], []) := by simp [fireDue]
    have hhandle : handleChange pats [] p t0 = [(p, t0 + debounceMs)] := by
      simp [handleChange, hp]
    simp only [List.map_cons, runWatcher, hfire, hhandle, List.nil_append]
    exact runWatcher_burst hp ts t0 hb
  · intro t ht
    obtain ⟨h1, h2⟩ := lastTime_bounds ts t0 hb
    have hd : 0 < debounceMs := by norm_num [debounceMs]
    rcases List.mem_cons.mp ht with rfl | ht'
    · omega
    · have := h2 t ht'; omega

/-- Witness for C5: three raw events on `src/app.ts` at times 0, 100, 200
(each within 500ms of its predecessor) against the default ignore
patterns yield exactly one notification, at time 700. -/
theorem debounce_burst_single_emission_witness :
    shouldIgnore defaultIgnorePatterns "src/app.ts".toList = false ∧
    burstAfter 0 [100, 200] = true ∧
    runWatcher defaultIgnorePatterns []
      ([0, 100, 200].map (fun t => ("src/app.ts".toList, t))) =
      [("src/app.ts".toList, 700)] :=
  ⟨by decide, by decide,
    (debounce_burst_single_emission defaultIgnorePatterns "src/app.ts".toList
      0 [100, 200] (by decide) (by decide)).1⟩

/-- C7: task resolution.  (a) If a task declares a directory-style entry
and the resolved path is nested under that directory, `matchTask` finds a
match (and by (c) it is that task when no earlier task matches).  (b) If
no task's entry matches the path under equality, prefix, suffix or
substring containment in either direction, `matchTask` returns no match.
(c) When several tasks match, the task earliest in declaration order is
returned. -/
theorem matchTask_resolution :
    ∀ (relPath : JStr) (tasks : List Task),
      (∀ t ∈ tasks, ∀ f ∈ t.files, nestedUnder f relPath = true →
        (matchTask relPath tasks).isSome = true) ∧
      ((∀ t ∈ tasks, ∀ f ∈ t.files, specEntryMatches relPath f = false) →
        matchTask relPath tasks = none) ∧
      (∀ (pre post : List Task) (t : Task), tasks = pre ++ t :: post →
        t.files.any (entryMatches relPath) = true →
        (∀ u ∈ pre, u.files.any (entryMatches relPath) = false) →
        matchTask relPath tasks = some t) := by
  intro relPath tasks
  refine ⟨?_, ?_, ?_⟩
  · intro t ht f hf hn
    rw [matchTask, List.find?_isSome]
    exact ⟨t, ht, List.any_eq_true.mpr ⟨f, hf, entryMatches_of_nested hn⟩⟩
  · intro h
    rw [matchTask, List.find?_eq_none]
    intro t ht
    simp only [Bool.not_eq_true, List.any_eq_false]
    intro f hf
    by_contra hc
    rw [Bool.not_eq_false] at hc
    exact absurd (specEntryMatches_of_entryMatches hc) (by simp [h t ht f hf])
  · intro pre post t hsplit hmatch hpre
    subst hsplit
    rw [matchTask, List.find?_append]
    have h1 : (pre.find? fun u => u.files.any (entryMatches relPath)) = none :=
      List.find?_eq_none.mpr (fun u hu => by simp [hpre u hu])
    simp [h1, hmatch]

/-- Concrete tasks for the C7 witness: the first owns `docs/`, the second
owns `src/`. -/
def taskDocs : Task :=
  { id := "1", description := "Write docs", assignee := TaskAssignee.human,
    status := TaskStatus.todo, files := ["docs/".toList],
    createdAt := "t0", updatedAt := "t0" }

/-- Second concrete task for the C7 witness. -/
def taskSrc : Task :=
  { id := "2", description := "Implement core", assignee := TaskAssignee.ai,
    status := TaskStatus.todo, files := ["src/".toList],
    createdAt := "t0", updatedAt := "t0" }

/-- Witness for C7: the path `src/main.ts` is nested under `src/`, the
earlier-declared task does not match, and `matchTask` returns the task
owning `src/`. -/
theorem matchTask_resolution_witness :
    nestedUnder "src/".toList "src/main.ts".toList = true ∧
    taskSrc.files.any (entryMatches "src/main.ts".toList) = true ∧
    matchTask "src/main.ts".toList [taskDocs, taskSrc] = some taskSrc :=
  ⟨by decide, by decide,
    (matchTask_resolution "src/main.ts".toList [taskDocs, taskSrc]).2.2
      [taskDocs] [] taskSrc rfl (by decide) (by decide)⟩

/-- C10: an empty ownership entry passes the prefix test
(`relPath.startsWith("")` is true for every string), so while a task with
an empty entry is on the board, `matchTask` never reports no-match; the
returned task is the earliest matching one, which is positioned no later
than the first task carrying an empty entry — searching past it changes
nothing. -/
theorem matchTask_empty_entry_always_resolves :
    ∀ (relPath : JStr) (pre post : List Task) (t : Task),
      ([] : JStr) ∈ t.files →
      (matchTask relPath (pre ++ t :: post)).isSome = true ∧
      matchTask relPath (pre ++ t :: post) = matchTask relPath (pre ++ [t]) := by
  intro relPath pre post t hf
  have hmatch : t.files.any (entryMatches relPath) = true :=
    List.any_eq_true.mpr ⟨[], hf, by simp [entryMatches]⟩
  constructor
  · rw [matchTask, List.find?_isSome]
    exact ⟨t, by simp, hmatch⟩
  · rw [matchTask, matchTask, List.find?_append, List.find?_append]
    simp [List.find?_cons, hmatch]

/-- Witness for C10: a task whose ownership list contains the empty
string resolves the unrelated path `README.md`. -/
theorem matchTask_empty_entry_always_resolves_witness :
    ([] : JStr) ∈ ["".toList] ∧
    (matchTask "README.md".toList
      [{ id := "e", description := "catch all", assignee := TaskAssignee.ai,
         status := TaskStatus.todo, files := ["".toList],
         createdAt := "t0", updatedAt := "t0" }]).isSome = true :=
  ⟨by decide,
    (matchTask_empty_entry_always_resolves "README.md".toList [] []
      { id := "e", description := "catch all", assignee := TaskAssignee.ai,
        status := TaskStatus.todo, files := ["".toList],
        createdAt := "t0", updatedAt := "t0" } (by decide)).1⟩

/-! ## Checkpoint subsystem (src/unnamed/part_002)

The `.duo/memory/` directory is modelled as an association list from file
name to the checkpoint record the file holds (`writeFile` replaces the
content of an existing name).  `JSON.stringify`/`JSON.parse` of one
checkpoint per `.jsonl` line round-trip on this data and are modelled by
storing the record itself. -/

/-- Embeds `interface Checkpoint` (part_002:15-24).  The timestamp is
string-manipulated (sanitized into the file name), hence `JStr`. -/
structure Checkpoint where
  timestamp : JStr
  phase : SessionPhase
  tasks : List Task
  design : Option DesignDocument
  subagents : List SubagentInfo
  decisions : List String
  filesModified : List JStr
  context : String
deriving DecidableEq, Repr

instance : Inhabited SessionPhase := ⟨SessionPhase.idle⟩

instance : Inhabited Checkpoint :=
  ⟨⟨[], SessionPhase.idle, [], none, [], [], [], ""⟩⟩

/-- The `data` argument of `writeCheckpoint` (part_002:42-48). -/
structure CheckpointData where
  phase : SessionPhase
  tasks : List Task
  design : Option DesignDocument
  subagents : List SubagentInfo
  context : Option String
deriving DecidableEq, Repr

/-- Keep the first occurrence of every element, as
`Array.from(new Set(xs))` does (JS `Set` iterates in insertion order). -/
def dedupFirst : List JStr → List JStr
  | [] => []
  | x :: xs => x :: dedupFirst (xs.filter (fun y => y != x))
termination_by l => l.length
decreasing_by
  simp only [List.length_cons]
  exact Nat.lt_succ_of_le (List.length_filter_le _ _)

/-- Embeds `timestamp.replace(/[:.]/g, "-")` (part_002:73). -/
def sanitizeChar (c : Char) : Char := if c = ':' ∨ c = '.' then '-' else c

/-- The filesystem-safe timestamp. -/
def sanitizeTimestamp (ts : JStr) : JStr := ts.map sanitizeChar

/-- Embeds `checkpoint-{safeTimestamp}.jsonl` (part_002:74). -/
def checkpointFilename (ts : JStr) : JStr :=
  "checkpoint-".toList ++ sanitizeTimestamp ts ++ ".jsonl".toList

/-- The full snapshot record `writeCheckpoint` assembles
(part_002:53-70): decisions derived from the design document,
deduplicated file set derived from all tasks' declared ownership. -/
def mkCheckpoint (ts : JStr) (d : CheckpointData) : Checkpoint :=
  { timestamp := ts
    phase := d.phase
    tasks := d.tasks
    design := d.design
    subagents := d.subagents
    decisions := (d.design.map DesignDocument.decisions).getD []
    filesModified := dedupFirst ((d.tasks.map Task.files).flatten)
    context := d.context.getD "" }

/-- The memory directory: file name to stored checkpoint record. -/
abbrev MemoryFs := List (JStr × Checkpoint)

/-- Embeds `writeFile` into the memory directory: replace an existing file of
the same name, otherwise create it. -/
def writeFileCp (fs : MemoryFs) (name : JStr) (c : Checkpoint) : MemoryFs :=
  if fs.any (fun e => e.1 == name)
  then fs.map (fun e => if e.1 == name then (name, c) else e)
  else fs ++ [(name, c)]

/-- Embeds `writeCheckpoint` (part_002:40-79): returns the file name it wrote.
`ts` is the server-assigned `new Date().toISOString()` sample. -/
def writeCheckpoint (fs : MemoryFs) (ts : JStr) (d : CheckpointData) :
    JStr × MemoryFs :=
  let filename := checkpointFilename ts
  (filename, writeFileCp fs filename (mkCheckpoint ts d))

/-- JS default string comparison (`Array.prototype.sort` comparator):
lexicographic by character code. -/
def lexLt : JStr → JStr → Bool
  | [], [] => false
  | [], _ :: _ => true
  | _ :: _, [] => false
  | a :: as, b :: bs => decide (a < b) || (a == b && lexLt as bs)

/-- Insert into an ascending list (JS `sort()` on distinct keys). -/
def insertAsc (x : JStr) : List JStr → List JStr
  | [] => [x]
  | y :: ys => if lexLt x y then x :: y :: ys else y :: insertAsc x ys

/-- Ascending sort by `lexLt`. -/
def sortAsc : List JStr → List JStr
  | [] => []
  | x :: xs => insertAsc x (sortAsc xs)

/-- Embeds `listCheckpoints` (part_002:84-95): the directory entries filtered to
`checkpoint-*.jsonl`, sorted, then reversed — newest first. -/
def listCheckpoints (fs : MemoryFs) : List JStr :=
  (sortAsc ((fs.map Prod.fst).filter
    (fun f => "checkpoint-".toList.isPrefixOf f &&
      ".jsonl".toList.isSuffixOf f))).reverse

/-- Read one checkpoint file: the record parsed from its first line. -/
def readFileCp (fs : MemoryFs) (name : JStr) : Option Checkpoint :=
  (fs.find? (fun e => e.1 == name)).map Prod.snd

/-- Embeds `readLatestCheckpoint` (part_002:100-110): `null` when no checkpoint
files exist, otherwise the content of the newest-listed file. -/
def readLatestCheckpoint (fs : MemoryFs) : Option Checkpoint :=
  match listCheckpoints fs with
  | [] => none
  | f :: _ => readFileCp fs f

/-- The fixed shape of `Date.prototype.toISOString` output
(`YYYY-MM-DDTHH:MM:SS.sssZ`): `some c` positions hold the literal `c`,
`none` positions hold a decimal digit. -/
def isoTemplate : List (Option Char) :=
  [none, none, none, none, some '-', none, none, some '-', none, none,
   some 'T', none, none, some ':', none, none, some ':', none, none,
   some '.', none, none, none, some 'Z']

/-- A character list matches a template. -/
def matchesTemplate : List (Option Char) → JStr → Bool
  | [], [] => true
  | some c :: tpl, d :: ds => d == c && matchesTemplate tpl ds
  | none :: tpl, d :: ds => d.isDigit && matchesTemplate tpl ds
  | _, _ => false

/-- The timestamp has the `toISOString` shape. -/
def isIsoTimestamp (ts : JStr) : Bool := matchesTemplate isoTemplate ts

/-- Replay a sequence of `writeCheckpoint` calls. -/
def runWrites (fs : MemoryFs) (ws : List (JStr × CheckpointData)) : MemoryFs :=
  ws.foldl (fun fs w => (writeCheckpoint fs w.1 w.2).2) fs

/-! ### Checkpoint helper lemmas -/

theorem lexLt_irrefl : ∀ a : JStr, lexLt a a = false := by
  intro a
  induction a with
  | nil => rfl
  | cons c cs ih => simp [lexLt, ih]

theorem lexLt_ne {a b : JStr} (h : lexLt a b = true) : a ≠ b := by
  intro heq
  subst heq
  rw [lexLt_irrefl] at h
  exact Bool.false_ne_true h

theorem sanitizeChar_digit {c : Char} (h : c.isDigit = true) :
    sanitizeChar c = c := by
  unfold sanitizeChar
  split
  · rename_i hc
    rcases hc with rfl | rfl <;> exact absurd h (by decide)
  · rfl

theorem matchesTemplate_length :
    ∀ (tpl : List (Option Char)) (s : JStr),
      matchesTemplate tpl s = true → s.length = tpl.length := by
  intro tpl
  induction tpl with
  | nil =>
    intro s h
    cases s with
    | nil => rfl
    | cons _ _ => simp [matchesTemplate] at h
  | cons o tpl ih =>
    intro s h
    cases s with
    | nil => cases o <;> simp [matchesTemplate] at h
    | cons c cs =>
      cases o with
      | some d =>
        simp only [matchesTemplate, Bool.and_eq_true] at h
        simp [ih cs h.2]
      | none =>
        simp only [matchesTemplate, Bool.and_eq_true] at h
        simp [ih cs h.2]

theorem sanitize_mono :
    ∀ (tpl : List (Option Char)) (a b : JStr),
      matchesTemplate tpl a = true → matchesTemplate tpl b = true →
      lexLt a b = true →
      lexLt (a.map sanitizeChar) (b.map sanitizeChar) = true := by
  intro tpl
  induction tpl with
  | nil =>
    intro a b ha hb hl
    cases a with
    | nil =>
      cases b with
      | nil => simp [lexLt] at hl
      | cons _ _ => simp [matchesTemplate] at hb
    | cons _ _ => simp [matchesTemplate] at ha
  | cons o tpl ih =>
    intro a b ha hb hl
    cases a with
    | nil => cases o <;> simp [matchesTemplate] at ha
    | cons x as =>
      cases b with
      | nil => cases o <;> simp [matchesTemplate] at hb
      | cons y bs =>
        cases o with
        | some c =>
          simp only [matchesTemplate, Bool.and_eq_true, beq_iff_eq] at ha hb
          obtain ⟨rfl, ha2⟩ := ha
          obtain ⟨rfl, hb2⟩ := hb
          have hl2 : lexLt as bs = true := by
            simp only [lexLt, Bool.or_eq_true, Bool.and_eq_true,
              decide_eq_true_eq, beq_iff_eq] at hl
            rcases hl with h | ⟨_, h⟩
            · exact absurd h (lt_irrefl _)
            · exact h
          simp only [List.map_cons, lexLt, Bool.or_eq_true, Bool.and_eq_true,
            decide_eq_true_eq, beq_iff_eq]
          exact Or.inr ⟨trivial, ih as bs ha2 hb2 hl2⟩
        | none =>
          simp only [matchesTemplate, Bool.and_eq_true] at ha hb
          obtain ⟨hxd, ha2⟩ := ha
          obtain ⟨hyd, hb2⟩ := hb
          simp only [List.map_cons, sanitizeChar_digit hxd, sanitizeChar_digit hyd]
          simp only [lexLt, Bool.or_eq_true, Bool.and_eq_true,
            decide_eq_true_eq, beq_iff_eq] at hl ⊢
          rcases hl with h | ⟨rfl, h⟩
          · exact Or.inl h
          · exact Or.inr ⟨rfl, ih as bs ha2 hb2 h⟩

theorem lexLt_append_left :
    ∀ (p x y : JStr), lexLt x y = true → lexLt (p ++ x) (p ++ y) = true := by
  intro p
  induction p with
  | nil => intro x y h; simpa using h
  | cons c p ih =>
    intro x y h
    simp only [List.cons_append, lexLt, Bool.or_eq_true, Bool.and_eq_true,
      decide_eq_true_eq, beq_iff_eq]
    exact Or.inr ⟨trivial, ih x y h⟩

theorem lexLt_append_right :
    ∀ (x y s : JStr), lexLt x y = true → x.length = y.length →
      lexLt (x ++ s) (y ++ s) = true := by
  intro x
  induction x with
  | nil =>
    intro y s h hlen
    cases y with
    | nil => simp [lexLt] at h
    | cons _ _ => simp at hlen
  | cons a as ih =>
    intro y s h hlen
    cases y with
    | nil => simp at hlen
    | cons b bs =>
      simp only [lexLt, Bool.or_eq_true, Bool.and_eq_true,
        decide_eq_true_eq, beq_iff_eq] at h
      simp only [List.cons_append, lexLt, Bool.or_eq_true, Bool.and_eq_true,
        decide_eq_true_eq, beq_iff_eq]
      rcases h with h | ⟨rfl, h⟩
      · exact Or.inl h
      · exact Or.inr ⟨rfl, ih bs s h (by simpa using hlen)⟩

theorem checkpointFilename_mono {a b : JStr}
    (ha : isIsoTimestamp a = true) (hb : isIsoTimestamp b = true)
    (h : lexLt a b = true) :
    lexLt (checkpointFilename a) (checkpointFilename b) = true := by
  have hs : lexLt (sanitizeTimestamp a) (sanitizeTimestamp b) = true :=
    sanitize_mono isoTemplate a b ha hb h
  have hlen : (sanitizeTimestamp a).length = (sanitizeTimestamp b).length := by
    simp [sanitizeTimestamp, matchesTemplate_length _ _ ha,
      matchesTemplate_length _ _ hb]
  unfold checkpointFilename
  rw [List.append_assoc, List.append_assoc]
  exact lexLt_append_left _ _ _ (lexLt_append_right _ _ _ hs hlen)

theorem checkpointFilename_passes (ts : JStr) :
    ("checkpoint-".toList.isPrefixOf (checkpointFilename ts) &&
      ".jsonl".toList.isSuffixOf (checkpointFilename ts)) = true := by
  unfold checkpointFilename
  rw [Bool.and_eq_true]
  constructor
  · rw [List.append_assoc]
    exact isPrefixOf_append_self _ _
  · rw [List.isSuffixOf_iff_suffix]
    exact List.suffix_append _ _

theorem runWrites_append :
    ∀ (ws : List (JStr × CheckpointData)) (fs : MemoryFs),
      (∀ w ∈ ws, ∀ e ∈ fs, e.1 ≠ checkpointFilename w.1) →
      List.Pairwise
        (fun a b => checkpointFilename a.1 ≠ checkpointFilename b.1) ws →
      runWrites fs ws =
        fs ++ ws.map (fun w => (checkpointFilename w.1, mkCheckpoint w.1 w.2)) := by
  intro ws
  induction ws with
  | nil => intro fs _ _; simp [runWrites]
  | cons w ws ih =>
    intro fs hfresh hpw
    have hnone : fs.any (fun e => e.1 == checkpointFilename w.1) = false := by
      rw [List.any_eq_false]
      intro e he
      simp only [beq_iff_eq]
      exact hfresh w (List.mem_cons_self w ws) e he
    have step : runWrites fs (w :: ws) =
        runWrites (fs ++ [(checkpointFilename w.1, mkCheckpoint w.1 w.2)]) ws := by
      simp [runWrites, writeCheckpoint, writeFileCp, hnone]
    rw [step, ih]
    · simp
    · intro w2 hw2 e he
      rcases List.mem_append.mp he with he1 | he2
      · exact hfresh w2 (List.mem_cons_of_mem _ hw2) e he1
      · rw [List.mem_singleton] at he2
        subst he2
        exact fun hc => ((List.pairwise_cons.mp hpw).1 w2 hw2) hc
    · exact (List.pairwise_cons.mp hpw).2

theorem sortAsc_pairwise_id :
    ∀ l : List JStr, List.Pairwise (fun a b => lexLt a b = true) l →
      sortAsc l = l := by
  intro l
  induction l with
  | nil => intro _; rfl
  | cons x xs ih =>
    intro hpw
    obtain ⟨hx, hpw2⟩ := List.pairwise_cons.mp hpw
    simp only [sortAsc, ih hpw2]
    cases xs with
    | nil => rfl
    | cons y ys => simp [insertAsc, hx y (List.mem_cons_self y ys)]

theorem readFileCp_append_last :
    ∀ (entries : MemoryFs) (n : JStr) (c : Checkpoint),
      (∀ e ∈ entries, e.1 ≠ n) →
      readFileCp (entries ++ [(n, c)]) n = some c := by
  intro entries n c
  induction entries with
  | nil =>
    intro _
    unfold readFileCp
    rw [List.nil_append, List.find?_cons_of_pos _ (by simp)]
    rfl
  | cons e es ih =>
    intro h
    have h1 : ¬ ((fun x : JStr × Checkpoint => x.1 == n) e = true) := by
      simp only [beq_iff_eq]
      exact h e (List.mem_cons_self e es)
    unfold readFileCp at ih ⊢
    rw [List.cons_append,
      @List.find?_cons_of_neg _ (fun x : JStr × Checkpoint => x.1 == n) e
        (es ++ [(n, c)]) h1]
    exact ih (fun e2 he2 => h e2 (List.mem_cons_of_mem _ he2))

theorem writeFileCp_mem (fs : MemoryFs) (n : JStr) (c : Checkpoint) :
    (writeFileCp fs n c).any (fun e => e.1 == n) = true := by
  unfold writeFileCp
  split
  · rename_i hany
    rw [List.any_eq_true] at hany ⊢
    obtain ⟨e, he, hbe⟩ := hany
    refine ⟨(n, c), ?_, by simp⟩
    rw [List.mem_map]
    exact ⟨e, he, by simp [hbe]⟩
  · rw [List.any_eq_true]
    exact ⟨(n, c), by simp, by simp⟩

theorem readFileCp_writeFileCp :
    ∀ (fs : MemoryFs) (n : JStr) (c : Checkpoint),
      readFileCp (writeFileCp fs n c) n = some c := by
  intro fs n c
  unfold writeFileCp
  by_cases hany : fs.any (fun e => e.1 == n) = true
  · rw [if_pos hany]
    revert hany
    induction fs with
    | nil => intro h; simp at h
    | cons e es ih =>
      intro h
      by_cases h1 : (e.1 == n) = true
      · unfold readFileCp
        rw [List.map_cons, if_pos h1, List.find?_cons_of_pos _ (by simp)]
        rfl
      · have h1f : (e.1 == n) = false := by simpa using h1
        rw [List.any_cons, h1f, Bool.false_or] at h
        unfold readFileCp at ih ⊢
        rw [List.map_cons, if_neg h1, List.find?_cons_of_neg _ (by simp [h1f])]
        exact ih h
  · rw [if_neg hany]
    have hanyf : fs.any (fun e => e.1 == n) = false := Bool.eq_false_iff.mpr hany
    apply readFileCp_append_last
    intro e he
    rw [List.any_eq_false] at hanyf
    exact fun hEq => (hanyf e he) (beq_iff_eq.mpr hEq)

theorem writeFileCp_keys_of_mem :
    ∀ (fs : MemoryFs) (n : JStr) (c : Checkpoint),
      fs.any (fun e => e.1 == n) = true →
      (writeFileCp fs n c).map Prod.fst = fs.map Prod.fst := by
  intro fs n c h
  unfold writeFileCp
  rw [if_pos h]
  clear h
  induction fs with
  | nil => rfl
  | cons e es ih =>
    simp only [List.map_cons]
    by_cases h1 : (e.1 == n) = true
    · have he : e.1 = n := by simpa using h1
      rw [if_pos h1, ih, he]
    · rw [if_neg h1, ih]

/-! ### Claim theorems: checkpoints -/

/-- C6: replaying any sequence of `writeCheckpoint` calls whose
server-assigned ISO timestamps strictly increase, starting from an empty
memory directory, `listCheckpoints` returns exactly the written snapshot
identifiers newest-first (the reverse of write order, which is descending
embedded-timestamp order), and `readLatestCheckpoint` returns exactly the
record of the last checkpoint written.  On an empty directory
`listCheckpoints` is `[]` and `readLatestCheckpoint` is `null`, and the
same falls out of the general statement for the empty write sequence. -/
theorem checkpoints_newest_first_and_latest :
    ∀ (ws : List (JStr × CheckpointData)),
      (∀ w ∈ ws, isIsoTimestamp w.1 = true) →
      List.Pairwise (fun a b => lexLt a.1 b.1 = true) ws →
      listCheckpoints (runWrites [] ws) =
        (ws.map (fun w => checkpointFilename w.1)).reverse ∧
      readLatestCheckpoint (runWrites [] ws) =
        ws.getLast?.map (fun w => mkCheckpoint w.1 w.2) ∧
      listCheckpoints ([] : MemoryFs) = [] ∧
      readLatestCheckpoint ([] : MemoryFs) = none := by
  intro ws hiso hinc
  have hpwname : List.Pairwise (fun a b : JStr × CheckpointData =>
      lexLt (checkpointFilename a.1) (checkpointFilename b.1) = true) ws :=
    hinc.imp_of_mem (fun {a b} hma hmb hr =>
      checkpointFilename_mono (hiso a hma) (hiso b hmb) hr)
  have hpwne : List.Pairwise (fun a b : JStr × CheckpointData =>
      checkpointFilename a.1 ≠ checkpointFilename b.1) ws :=
    hpwname.imp (fun h => lexLt_ne h)
  have hentries : runWrites [] ws =
      ws.map (fun w => (checkpointFilename w.1, mkCheckpoint w.1 w.2)) := by
    simpa using runWrites_append ws [] (by simp) hpwne
  have hkeys : (runWrites [] ws).map Prod.fst =
      ws.map (fun w => checkpointFilename w.1) := by
    rw [hentries, List.map_map]
    rfl
  have hfilter : ((runWrites [] ws).map Prod.fst).filter
      (fun f => "checkpoint-".toList.isPrefixOf f &&
        ".jsonl".toList.isSuffixOf f) =
      ws.map (fun w => checkpointFilename w.1) := by
    rw [hkeys]
    apply List.filter_eq_self.mpr
    intro n hn
    rcases List.mem_map.mp hn with ⟨w, _, rfl⟩
    exact checkpointFilename_passes w.1
  have hsorted : sortAsc (ws.map (fun w => checkpointFilename w.1)) =
      ws.map (fun w => checkpointFilename w.1) :=
    sortAsc_pairwise_id _ (List.pairwise_map.mpr hpwname)
  have hlist : listCheckpoints (runWrites [] ws) =
      (ws.map (fun w => checkpointFilename w.1)).reverse := by
    rw [listCheckpoints, hfilter, hsorted]
  refine ⟨hlist, ?_, rfl, rfl⟩
  rcases List.eq_nil_or_concat ws with rfl | ⟨ws0, wl, rfl⟩
  · rfl
  · rw [List.concat_eq_append] at *
    have hhead : listCheckpoints (runWrites [] (ws0 ++ [wl])) =
        checkpointFilename wl.1 ::
          (ws0.map (fun w => checkpointFilename w.1)).reverse := by
      rw [hlist]
      simp
    unfold readLatestCheckpoint
    rw [hhead]
    have hlast : (ws0 ++ [wl]).getLast? = some wl := List.getLast?_concat _
    rw [hlast]
    have hne : ∀ e ∈ ws0.map
        (fun w => (checkpointFilename w.1, mkCheckpoint w.1 w.2)),
        e.1 ≠ checkpointFilename wl.1 := by
      intro e he
      rcases List.mem_map.mp he with ⟨w, hw, rfl⟩
      exact (List.pairwise_append.mp hpwne).2.2 w hw wl (List.mem_singleton.mpr rfl)
    rw [hentries, List.map_append]
    simpa using readFileCp_append_last _ _ _ hne

/-- C9: the checkpoint file name depends only on the sanitized
server-assigned timestamp, so two `writeCheckpoint` calls with the same
millisecond timestamp return the same file name; the second write
replaces the first record's content in place (`writeFile` truncates an
existing file), the directory's name set is unchanged by the second
write, and starting from an empty directory the pair produces a single
listed identifier rather than two. -/
theorem checkpoint_equal_timestamps_collide :
    ∀ (fs : MemoryFs) (ts : JStr) (d1 d2 : CheckpointData),
      (writeCheckpoint fs ts d1).1 =
        (writeCheckpoint (writeCheckpoint fs ts d1).2 ts d2).1 ∧
      readFileCp (writeCheckpoint (writeCheckpoint fs ts d1).2 ts d2).2
        (checkpointFilename ts) = some (mkCheckpoint ts d2) ∧
      ((writeCheckpoint (writeCheckpoint fs ts d1).2 ts d2).2).map Prod.fst =
        ((writeCheckpoint fs ts d1).2).map Prod.fst ∧
      listCheckpoints (writeCheckpoint (writeCheckpoint [] ts d1).2 ts d2).2 =
        [checkpointFilename ts] := by
  intro fs ts d1 d2
  refine ⟨rfl, ?_, ?_, ?_⟩
  · exact readFileCp_writeFileCp _ _ _
  · exact writeFileCp_keys_of_mem _ _ _ (writeFileCp_mem fs (checkpointFilename ts) _)
  · have h1 : (writeCheckpoint ([] : MemoryFs) ts d1).2 =
        [(checkpointFilename ts, mkCheckpoint ts d1)] := by
      simp [writeCheckpoint, writeFileCp]
    have h2 : (writeCheckpoint [(checkpointFilename ts, mkCheckpoint ts d1)] ts d2).2 =
        [(checkpointFilename ts, mkCheckpoint ts d2)] := by
      simp [writeCheckpoint, writeFileCp]
    rw [h1, h2]
    have hpass := checkpointFilename_passes ts
    unfold listCheckpoints
    simp only [List.map_cons, List.map_nil, List.filter_cons, List.filter_nil, hpass]
    simp [sortAsc, insertAsc]

/-! ## Recovery routine (src/unnamed/part_013, `duo_recover_session`)

The tool restores the phase, restores the design when present, then for
each checkpoint task adds it when absent and restores its status when it
differs, and finally merges the delegated-work (subagent) records keyed
by `(taskId, spawnedAt)`. -/

/-- One iteration of the task-restore loop, first half
(part_013:378-382): add the checkpoint task when no task with its id
exists. -/
def ensureTask (now : String) (s : DuoSession) (ct : Task) : DuoSession :=
  if (getTask s ct.id).isSome then s
  else (addTask now s ct.id ct.description ct.assignee ct.files).1

/-- One iteration of the task-restore loop, second half
(part_013:383-387): overwrite the status from the checkpoint when it
differs.  The error branch is unreachable because the task was just
ensured present. -/
def restoreStatus (now : String) (s1 : DuoSession) (ct : Task) : DuoSession :=
  match getTask s1 ct.id with
  | some cur =>
    if cur.status ≠ ct.status then
      match updateTaskStatus now s1 ct.id ct.status with
      | Except.ok r => r.1
      | Except.error _ => s1
    else s1
  | none => s1

/-- The full body of the task-restore loop for one checkpoint task. -/
def recoverTaskStep (now : String) (s : DuoSession) (ct : Task) : DuoSession :=
  restoreStatus now (ensureTask now s ct) ct

/-- Two delegated-work records share the merge key
`(taskId, spawnedAt)` (part_013:392). -/
def sameKey (a b : SubagentInfo) : Bool :=
  a.taskId == b.taskId && a.spawnedAt == b.spawnedAt

/-- Embeds `if (checkpoint.design) await state.setDesign(checkpoint.design)`
(part_013:371-373). -/
def designStep (now : String) (s1 : DuoSession) (cp : Checkpoint) :
    DuoSession :=
  match cp.design with
  | some d => (setDesign now s1 d).1
  | none => s1

/-- Embeds `duo_recover_session` (part_013:369-396) as a function of the local
session and the checkpoint being restored. -/
def recoverSession (now : String) (s : DuoSession) (cp : Checkpoint) :
    DuoSession :=
  let s1 := (setPhase now s cp.phase).1
  let s2 := designStep now s1 cp
  let s3 := cp.tasks.foldl (recoverTaskStep now) s2
  cp.subagents.foldl (fun acc sub =>
    if acc.subagents.any (fun x => sameKey x sub) then acc
    else (addSubagent now acc sub).1) s3

/-- Modelled from the spec's merge policy, for comparison with the code:
delegated-work records are merged by the pair (task id, spawn
timestamp), skipping records already present. -/
def mergeRecords (existing incoming : List SubagentInfo) :
    List SubagentInfo :=
  incoming.foldl (fun acc c =>
    if acc.any (fun x => sameKey x c) then acc else acc ++ [c]) existing

/-! ### Recovery helper lemmas -/

theorem updateTaskStatus_inv {now : String} {s : DuoSession} {id : String}
    {st : TaskStatus} {r : DuoSession × Task × List FsOp}
    (h : updateTaskStatus now s id st = Except.ok r) :
    r.1.phase = s.phase ∧ r.1.subagents = s.subagents ∧
    r.1.taskBoard.tasks =
      updateFirst id (fun u => { u with status := st, updatedAt := now })
        s.taskBoard.tasks := by
  unfold updateTaskStatus at h
  cases hg : getTask s id with
  | none =>
    rw [hg] at h
    simp at h
  | some t =>
    rw [hg] at h
    simp only [Except.ok.injEq] at h
    subst h
    exact ⟨rfl, rfl, rfl⟩

theorem getTask_addTask_self {s : DuoSession} {i : String}
    (h : getTask s i = none) (now d : String) (a : TaskAssignee)
    (f : List JStr) :
    getTask (addTask now s i d a f).1 i =
      some { id := i, description := d, assignee := a,
             status := TaskStatus.todo, files := f,
             createdAt := now, updatedAt := now } := by
  unfold getTask at h ⊢
  show List.find? _ (s.taskBoard.tasks ++ [_]) = _
  rw [List.find?_append, h, Option.none_or]
  exact List.find?_cons_of_pos _ (by simp)

theorem getTask_addTask_other {s : DuoSession} {i j : String} (hne : j ≠ i)
    (now d : String) (a : TaskAssignee) (f : List JStr) :
    getTask (addTask now s i d a f).1 j = getTask s j := by
  unfold getTask
  show List.find? _ (s.taskBoard.tasks ++ [_]) = _
  rw [List.find?_append]
  have hno : List.find? (fun t => t.id == j)
      [({ id := i, description := d, assignee := a,
          status := TaskStatus.todo, files := f,
          createdAt := now, updatedAt := now } : Task)] = none := by
    simp [beq_eq_false_iff_ne.mpr (Ne.symm hne)]
  rw [hno, Option.or_none]

theorem find?_updateFirst_self :
    ∀ (tasks : List Task) (i : String) (f : Task → Task) (t : Task),
      (∀ u, (f u).id = u.id) →
      List.find? (fun u => u.id == i) tasks = some t →
      List.find? (fun u => u.id == i) (updateFirst i f tasks) = some (f t) := by
  intro tasks i f t hf
  induction tasks with
  | nil => intro h; simp at h
  | cons t0 rest ih =>
    intro h
    by_cases h0 : (t0.id == i) = true
    · rw [@List.find?_cons_of_pos _ (fun u : Task => u.id == i) t0 rest h0] at h
      simp only [Option.some.injEq] at h
      subst h
      unfold updateFirst
      rw [if_pos h0]
      exact @List.find?_cons_of_pos _ (fun u : Task => u.id == i) (f t0) rest
        (by show ((f t0).id == i) = true; rw [hf t0]; exact h0)
    · rw [@List.find?_cons_of_neg _ (fun u : Task => u.id == i) t0 rest h0] at h
      unfold updateFirst
      rw [if_neg h0,
        @List.find?_cons_of_neg _ (fun u : Task => u.id == i) t0
          (updateFirst i f rest) h0]
      exact ih h

theorem find?_updateFirst_other :
    ∀ (tasks : List Task) (i j : String) (f : Task → Task),
      (∀ u, (f u).id = u.id) → j ≠ i →
      List.find? (fun u => u.id == j) (updateFirst i f tasks) =
        List.find? (fun u => u.id == j) tasks := by
  intro tasks i j f hf hne
  induction tasks with
  | nil => rfl
  | cons t0 rest ih =>
    unfold updateFirst
    by_cases h0 : (t0.id == i) = true
    · rw [if_pos h0]
      have hid : t0.id = i := by simpa using h0
      have hj1 : ¬ ((fun u : Task => u.id == j) (f t0) = true) := by
        simp only [hf, hid, beq_iff_eq]
        exact Ne.symm hne
      have hj0 : ¬ ((fun u : Task => u.id == j) t0 = true) := by
        simp only [hid, beq_iff_eq]
        exact Ne.symm hne
      rw [@List.find?_cons_of_neg _ (fun u : Task => u.id == j) (f t0) rest hj1,
        @List.find?_cons_of_neg _ (fun u : Task => u.id == j) t0 rest hj0]
    · rw [if_neg h0]
      by_cases hj : ((fun u : Task => u.id == j) t0 = true)
      · rw [@List.find?_cons_of_pos _ (fun u : Task => u.id == j) t0
            (updateFirst i f rest) hj,
          @List.find?_cons_of_pos _ (fun u : Task => u.id == j) t0 rest hj]
      · rw [@List.find?_cons_of_neg _ (fun u : Task => u.id == j) t0
            (updateFirst i f rest) hj,
          @List.find?_cons_of_neg _ (fun u : Task => u.id == j) t0 rest hj]
        exact ih

theorem ensureTask_phase (now : String) (s : DuoSession) (ct : Task) :
    (ensureTask now s ct).phase = s.phase := by
  unfold ensureTask
  split <;> rfl

theorem ensureTask_subagents (now : String) (s : DuoSession) (ct : Task) :
    (ensureTask now s ct).subagents = s.subagents := by
  unfold ensureTask
  split <;> rfl

theorem restoreStatus_phase (now : String) (s1 : DuoSession) (ct : Task) :
    (restoreStatus now s1 ct).phase = s1.phase := by
  unfold restoreStatus
  split
  · split
    · split
      · rename_i r heq
        exact (updateTaskStatus_inv heq).1
      · rfl
    · rfl
  · rfl

theorem restoreStatus_subagents (now : String) (s1 : DuoSession) (ct : Task) :
    (restoreStatus now s1 ct).subagents = s1.subagents := by
  unfold restoreStatus
  split
  · split
    · split
      · rename_i r heq
        exact (updateTaskStatus_inv heq).2.1
      · rfl
    · rfl
  · rfl

theorem recoverTaskStep_phase (now : String) (s : DuoSession) (ct : Task) :
    (recoverTaskStep now s ct).phase = s.phase :=
  (restoreStatus_phase now (ensureTask now s ct) ct).trans
    (ensureTask_phase now s ct)

theorem recoverTaskStep_subagents (now : String) (s : DuoSession) (ct : Task) :
    (recoverTaskStep now s ct).subagents = s.subagents :=
  (restoreStatus_subagents now (ensureTask now s ct) ct).trans
    (ensureTask_subagents now s ct)

theorem restoreStatus_getTask_other {j : String} {ct : Task}
    (hne : j ≠ ct.id) (now : String) (s1 : DuoSession) :
    getTask (restoreStatus now s1 ct) j = getTask s1 j := by
  unfold restoreStatus
  split
  · split
    · split
      · rename_i r heq
        have h3 := (updateTaskStatus_inv heq).2.2
        unfold getTask
        rw [h3]
        exact find?_updateFirst_other _ _ _ _ (fun u => rfl) hne
      · rfl
    · rfl
  · rfl

theorem ensureTask_getTask_other {j : String} {ct : Task}
    (hne : j ≠ ct.id) (now : String) (s : DuoSession) :
    getTask (ensureTask now s ct) j = getTask s j := by
  unfold ensureTask
  split
  · rfl
  · exact getTask_addTask_other hne now ct.description ct.assignee ct.files

theorem recoverTaskStep_getTask_other {j : String} {ct : Task}
    (hne : j ≠ ct.id) (now : String) (s : DuoSession) :
    getTask (recoverTaskStep now s ct) j = getTask s j :=
  (restoreStatus_getTask_other hne now (ensureTask now s ct)).trans
    (ensureTask_getTask_other hne now s)

theorem restoreStatus_self {now : String} {s1 : DuoSession} {ct : Task}
    {cur : Task} (hg : getTask s1 ct.id = some cur) :
    ∃ u, getTask (restoreStatus now s1 ct) ct.id = some u ∧
      u.description = cur.description ∧ u.assignee = cur.assignee ∧
      u.files = cur.files ∧ u.status = ct.status := by
  unfold restoreStatus
  simp only [hg]
  by_cases hst : cur.status ≠ ct.status
  · rw [if_pos hst]
    cases hupd : updateTaskStatus now s1 ct.id ct.status with
    | error e =>
      exfalso
      unfold updateTaskStatus at hupd
      rw [hg] at hupd
      simp at hupd
    | ok r =>
      obtain ⟨_, _, htasks⟩ := updateTaskStatus_inv hupd
      refine ⟨{ cur with status := ct.status, updatedAt := now },
        ?_, rfl, rfl, rfl, rfl⟩
      unfold getTask
      rw [htasks]
      exact find?_updateFirst_self _ _ _ _ (fun u => rfl) hg
  · rw [if_neg hst]
    exact ⟨cur, hg, rfl, rfl, rfl, not_ne_iff.mp hst⟩

theorem recoverTaskStep_absent {now : String} {s : DuoSession} {ct : Task}
    (h : getTask s ct.id = none) :
    ∃ u, getTask (recoverTaskStep now s ct) ct.id = some u ∧
      u.description = ct.description ∧ u.assignee = ct.assignee ∧
      u.files = ct.files ∧ u.status = ct.status := by
  unfold recoverTaskStep
  have hens : ensureTask now s ct =
      (addTask now s ct.id ct.description ct.assignee ct.files).1 := by
    unfold ensureTask
    rw [if_neg (by rw [h]; simp)]
  rw [hens]
  obtain ⟨u, hu, h1, h2, h3, h4⟩ := restoreStatus_self
    (getTask_addTask_self h now ct.description ct.assignee ct.files)
  exact ⟨u, hu, h1, h2, h3, h4⟩

theorem recoverTaskStep_present {now : String} {s : DuoSession} {ct : Task}
    {cur : Task} (h : getTask s ct.id = some cur) :
    ∃ u, getTask (recoverTaskStep now s ct) ct.id = some u ∧
      u.description = cur.description ∧ u.assignee = cur.assignee ∧
      u.files = cur.files ∧ u.status = ct.status := by
  unfold recoverTaskStep
  have hens : ensureTask now s ct = s := by
    unfold ensureTask
    rw [if_pos (by rw [h]; rfl)]
  rw [hens]
  exact restoreStatus_self h

theorem foldl_proj_inv {β γ : Type} (g : DuoSession → γ)
    (f : DuoSession → β → DuoSession)
    (hf : ∀ s b, g (f s b) = g s) :
    ∀ (l : List β) (s : DuoSession), g (l.foldl f s) = g s := by
  intro l
  induction l with
  | nil => intro s; rfl
  | cons b bs ih => intro s; rw [List.foldl_cons, ih, hf]

theorem foldl_recover_getTask_other {now : String} :
    ∀ (l : List Task) (s : DuoSession) (j : String),
      (∀ ct ∈ l, ct.id ≠ j) →
      getTask (l.foldl (recoverTaskStep now) s) j = getTask s j := by
  intro l
  induction l with
  | nil => intro s j _; rfl
  | cons ct l ih =>
    intro s j h
    rw [List.foldl_cons, ih _ _ (fun x hx => h x (List.mem_cons_of_mem _ hx)),
      recoverTaskStep_getTask_other (Ne.symm (h ct (List.mem_cons_self ct l)))]

theorem foldl_recover_mem {now : String} :
    ∀ (l : List Task) (s : DuoSession) (ct : Task),
      ct ∈ l → (l.map Task.id).Nodup →
      (getTask s ct.id = none →
        ∃ u, getTask (l.foldl (recoverTaskStep now) s) ct.id = some u ∧
          u.description = ct.description ∧ u.assignee = ct.assignee ∧
          u.files = ct.files ∧ u.status = ct.status) ∧
      (∀ cur, getTask s ct.id = some cur →
        ∃ u, getTask (l.foldl (recoverTaskStep now) s) ct.id = some u ∧
          u.description = cur.description ∧ u.assignee = cur.assignee ∧
          u.files = cur.files ∧ u.status = ct.status) := by
  intro l
  induction l with
  | nil => intro s ct h; exact absurd h (List.not_mem_nil ct)
  | cons hd tl ih =>
    intro s ct hmem hnd
    have hnd2 : (tl.map Task.id).Nodup := (List.nodup_cons.mp (by simpa using hnd)).2
    have hnotin : hd.id ∉ tl.map Task.id :=
      (List.nodup_cons.mp (by simpa using hnd)).1
    rcases List.mem_cons.mp hmem with rfl | htl
    · -- ct is the head; the step establishes the task, the rest of the
      -- fold leaves its entry alone
      have hpres : ∀ x ∈ tl, x.id ≠ ct.id := by
        intro x hx hEq
        exact hnotin (hEq ▸ List.mem_map_of_mem Task.id hx)
      constructor
      · intro habs
        obtain ⟨u, hu, h1, h2, h3, h4⟩ := recoverTaskStep_absent habs
        refine ⟨u, ?_, h1, h2, h3, h4⟩
        rw [List.foldl_cons, foldl_recover_getTask_other tl _ _ hpres]
        exact hu
      · intro cur hcur
        obtain ⟨u, hu, h1, h2, h3, h4⟩ := recoverTaskStep_present hcur
        refine ⟨u, ?_, h1, h2, h3, h4⟩
        rw [List.foldl_cons, foldl_recover_getTask_other tl _ _ hpres]
        exact hu
    · -- ct is in the tail; the head's step does not touch ct's entry
      have hne : ct.id ≠ hd.id := by
        intro hEq
        exact hnotin (hEq ▸ List.mem_map_of_mem Task.id htl)
      have hstep : getTask (recoverTaskStep now s hd) ct.id = getTask s ct.id :=
        recoverTaskStep_getTask_other hne now s
      have := ih (recoverTaskStep now s hd) ct htl hnd2
      rw [hstep] at this
      rw [List.foldl_cons]
      exact this

theorem subFold_merge {now : String} :
    ∀ (subs : List SubagentInfo) (s : DuoSession),
      (subs.foldl (fun acc sub =>
        if acc.subagents.any (fun x => sameKey x sub) then acc
        else (addSubagent now acc sub).1) s).subagents =
      mergeRecords s.subagents subs := by
  intro subs
  induction subs with
  | nil => intro s; rfl
  | cons c cs ih =>
    intro s
    rw [List.foldl_cons]
    unfold mergeRecords
    rw [List.foldl_cons]
    by_cases h : s.subagents.any (fun x => sameKey x c) = true
    · rw [if_pos h, if_pos h]
      exact ih s
    · rw [if_neg h, if_neg h]
      have := ih (addSubagent now s c).1
      rw [this]
      rfl

theorem mergeRecords_grows (p : SubagentInfo → Bool) :
    ∀ (cs : List SubagentInfo) (e : List SubagentInfo),
      e.any p = true → (mergeRecords e cs).any p = true := by
  intro cs
  induction cs with
  | nil => intro e h; exact h
  | cons c cs ih =>
    intro e h
    unfold mergeRecords
    rw [List.foldl_cons]
    by_cases hc : e.any (fun x => sameKey x c) = true
    · rw [if_pos hc]
      exact ih e h
    · rw [if_neg hc]
      apply ih
      rw [List.any_append, h]
      rfl

theorem mergeRecords_covers :
    ∀ (cs : List SubagentInfo) (e : List SubagentInfo) (c : SubagentInfo),
      c ∈ cs → (mergeRecords e cs).any (fun x => sameKey x c) = true := by
  intro cs
  induction cs with
  | nil => intro e c h; exact absurd h (List.not_mem_nil c)
  | cons c0 cs ih =>
    intro e c hmem
    rcases List.mem_cons.mp hmem with rfl | h2
    · unfold mergeRecords
      rw [List.foldl_cons]
      apply mergeRecords_grows
      by_cases hc : e.any (fun x => sameKey x c) = true
      · rw [if_pos hc]
        exact hc
      · rw [if_neg hc, List.any_append]
        simp [sameKey]
    · unfold mergeRecords
      rw [List.foldl_cons]
      exact ih _ c h2

theorem mergeRecords_skip :
    ∀ (cs e : List SubagentInfo),
      (∀ c ∈ cs, e.any (fun x => sameKey x c) = true) →
      mergeRecords e cs = e := by
  intro cs
  induction cs with
  | nil => intro e _; rfl
  | cons c cs ih =>
    intro e h
    unfold mergeRecords
    rw [List.foldl_cons, if_pos (h c (List.mem_cons_self c cs))]
    exact ih e (fun x hx => h x (List.mem_cons_of_mem _ hx))

/-! ### Claim theorem: recovery -/

/-- C4: the recovery routine restores the phase verbatim from the
checkpoint; recreates each checkpoint task absent locally with the
checkpoint's description, assignee, ownership list and status; for each
task present in both, overwrites its status from the checkpoint while
keeping the local assignee and description; and merges delegated-work
records by the key (task id, spawn timestamp): the result equals the
spec's merge of the local records with the checkpoint records, every
checkpoint record's key is present afterwards, and records whose key is
already present locally are skipped (if all are present, the record list
is unchanged).  The checkpoint's task ids are assumed distinct, as
`writeCheckpoint` snapshots them from a board keyed by id. -/
theorem recover_session_merge_policy :
    ∀ (now : String) (s : DuoSession) (cp : Checkpoint),
      (cp.tasks.map Task.id).Nodup →
      (recoverSession now s cp).phase = cp.phase ∧
      (∀ ct ∈ cp.tasks, getTask s ct.id = none →
        ∃ u, getTask (recoverSession now s cp) ct.id = some u ∧
          u.description = ct.description ∧ u.assignee = ct.assignee ∧
          u.files = ct.files ∧ u.status = ct.status) ∧
      (∀ ct ∈ cp.tasks, ∀ cur, getTask s ct.id = some cur →
        ∃ u, getTask (recoverSession now s cp) ct.id = some u ∧
          u.status = ct.status ∧ u.assignee = cur.assignee ∧
          u.description = cur.description) ∧
      (recoverSession now s cp).subagents =
        mergeRecords s.subagents cp.subagents ∧
      (∀ c ∈ cp.subagents,
        (recoverSession now s cp).subagents.any (fun x => sameKey x c) = true) ∧
      ((∀ c ∈ cp.subagents, s.subagents.any (fun x => sameKey x c) = true) →
        (recoverSession now s cp).subagents = s.subagents) := by
  intro now s cp hnd
  have hrec : recoverSession now s cp =
      cp.subagents.foldl (fun acc sub =>
        if acc.subagents.any (fun x => sameKey x sub) then acc
        else (addSubagent now acc sub).1)
        (cp.tasks.foldl (recoverTaskStep now)
          (designStep now (setPhase now s cp.phase).1 cp)) := rfl
  have hsub3 : (cp.tasks.foldl (recoverTaskStep now)
      (designStep now (setPhase now s cp.phase).1 cp)).subagents =
      s.subagents := by
    rw [foldl_proj_inv (fun x => x.subagents) (recoverTaskStep now)
      (fun s b => recoverTaskStep_subagents now s b) cp.tasks _]
    show (designStep now (setPhase now s cp.phase).1 cp).subagents = s.subagents
    unfold designStep
    cases cp.design <;> rfl
  have hsubs : (recoverSession now s cp).subagents =
      mergeRecords s.subagents cp.subagents := by
    rw [hrec, subFold_merge cp.subagents _, hsub3]
  have hphase : (recoverSession now s cp).phase = cp.phase := by
    rw [hrec]
    rw [foldl_proj_inv (fun x => x.phase) _ (fun s b => by
      dsimp only
      split
      · rfl
      · rfl) cp.subagents _]
    rw [foldl_proj_inv (fun x => x.phase) (recoverTaskStep now)
      (fun s b => recoverTaskStep_phase now s b) cp.tasks _]
    show (designStep now (setPhase now s cp.phase).1 cp).phase = cp.phase
    unfold designStep
    cases cp.design <;> rfl
  have hTasksSub : ∀ j, getTask (recoverSession now s cp) j =
      getTask (cp.tasks.foldl (recoverTaskStep now)
        (designStep now (setPhase now s cp.phase).1 cp)) j := by
    intro j
    rw [hrec]
    unfold getTask
    rw [foldl_proj_inv (fun x => x.taskBoard.tasks) _ (fun s b => by
      dsimp only
      split
      · rfl
      · rfl) cp.subagents _]
  have hmidTask : ∀ j,
      getTask (designStep now (setPhase now s cp.phase).1 cp) j =
      getTask s j := by
    intro j
    unfold getTask designStep
    cases cp.design <;> rfl
  refine ⟨hphase, ?_, ?_, hsubs, ?_, ?_⟩
  · intro ct hct habs
    have habs2 : getTask (designStep now (setPhase now s cp.phase).1 cp)
        ct.id = none := by
      rw [hmidTask]
      exact habs
    obtain ⟨u, hu, h1, h2, h3, h4⟩ :=
      (foldl_recover_mem cp.tasks _ ct hct hnd).1 habs2
    refine ⟨u, ?_, h1, h2, h3, h4⟩
    rw [hTasksSub]
    exact hu
  · intro ct hct cur hcur
    have hcur2 : getTask (designStep now (setPhase now s cp.phase).1 cp)
        ct.id = some cur := by
      rw [hmidTask]
      exact hcur
    obtain ⟨u, hu, h1, h2, h3, h4⟩ :=
      (foldl_recover_mem cp.tasks _ ct hct hnd).2 cur hcur2
    refine ⟨u, ?_, h4, h2, h1⟩
    rw [hTasksSub]
    exact hu
  · intro c hc
    rw [hsubs]
    exact mergeRecords_covers cp.subagents s.subagents c hc
  · intro hall
    rw [hsubs]
    exact mergeRecords_skip cp.subagents s.subagents hall

/-- Concrete local session for the C4 witness: one task `"a"` and one
delegated-work record. -/
def sExRecover : DuoSession :=
  { defaultSession "/proj" "t0" with
    taskBoard :=
      { tasks := [{ id := "a", description := "local desc",
                    assignee := TaskAssignee.human,
                    status := TaskStatus.todo, files := [],
                    createdAt := "t0", updatedAt := "t0" }],
        createdAt := "t0", updatedAt := "t0" },
    subagents := [{ taskId := "a", status := "done", spawnedAt := "t0",
                    prompt := "p0" }] }

/-- Concrete checkpoint for the C4 witness: task `"a"` (present locally,
different status) and task `"b"` (absent locally); one already-present and
one new delegated-work record. -/
def cpExRecover : Checkpoint :=
  { timestamp := "2024-01-01T00:00:05.000Z".toList
    phase := SessionPhase.executing
    tasks := [{ id := "a", description := "cp desc",
                assignee := TaskAssignee.ai, status := TaskStatus.done,
                files := [], createdAt := "t0", updatedAt := "t0" },
              { id := "b", description := "new task",
                assignee := TaskAssignee.ai,
                status := TaskStatus.in_progress, files := [],
                createdAt := "t0", updatedAt := "t0" }]
    design := none
    subagents := [{ taskId := "a", status := "done", spawnedAt := "t0",
                    prompt := "p0" },
                  { taskId := "b", status := "pending", spawnedAt := "t1",
                    prompt := "p1" }]
    decisions := []
    filesModified := []
    context := "ctx" }

/-- Witness for C4 at a concrete input: the checkpoint's task ids are
distinct and the recovered session's phase is the checkpoint's phase. -/
theorem recover_session_merge_policy_witness :
    (cpExRecover.tasks.map Task.id).Nodup ∧
    (recoverSession "t9" sExRecover cpExRecover).phase = cpExRecover.phase :=
  ⟨by decide,
    (recover_session_merge_policy "t9" sExRecover cpExRecover (by decide)).1⟩

/-- Concrete checkpoint payload for the C6 witness. -/
def cpDataEx : CheckpointData :=
  { phase := SessionPhase.executing, tasks := [], design := none,
    subagents := [], context := none }

/-- Three writes with strictly increasing ISO timestamps for the C6
witness. -/
def wsEx : List (JStr × CheckpointData) :=
  [("2024-01-01T00:00:00.000Z".toList, cpDataEx),
   ("2024-01-01T00:00:01.000Z".toList, cpDataEx),
   ("2024-01-01T00:00:02.000Z".toList, cpDataEx)]

/-- Witness for C6 at a concrete input: the three timestamps are
ISO-shaped and strictly increasing, and the latest checkpoint read back
is the last one written. -/
theorem checkpoints_newest_first_and_latest_witness :
    (∀ w ∈ wsEx, isIsoTimestamp w.1 = true) ∧
    List.Pairwise (fun a b : JStr × CheckpointData => lexLt a.1 b.1 = true) wsEx ∧
    readLatestCheckpoint (runWrites [] wsEx) =
      wsEx.getLast?.map (fun w => mkCheckpoint w.1 w.2) :=
  ⟨by decide, by decide,
    (checkpoints_newest_first_and_latest wsEx (by decide) (by decide)).2.1⟩

end Duo
